import Mathlib

/-
Verification of the structured-output helper in src/lib/gpt.ts
(`strict_output`).  The TypeScript function is embedded shallowly:
JavaScript values produced by JSON.parse become the inductive `JVal`,
the output-format map becomes an association list over `FmtVal`, the
generative-text provider becomes an oracle parameter, and the retry
loop becomes a fuel-indexed recursion that also records the prompt
built for every attempt so that prompt-level properties are statable.
-/

namespace StrictOutput

/- Characters that the scanner of this file cannot hold as literals are
built from their code points. -/

def tickC : Char := Char.ofNat 96

def squoteC : Char := Char.ofNat 39

def dquoteC : Char := Char.ofNat 34

def bslashC : Char := Char.ofNat 92

def braceO : Char := Char.ofNat 123

def braceCl : Char := Char.ofNat 125

def brackO : Char := Char.ofNat 91

def brackCl : Char := Char.ofNat 93

/-- JavaScript runtime values reachable in `strict_output`: everything
JSON.parse can produce, plus `undefined`, which arises when the code reads
element 0 of an empty array.  Number literals keep their source lexeme. -/
inductive JVal where
  | null : JVal
  | undefined : JVal
  | bool (b : Bool) : JVal
  | num (lex : String) : JVal
  | str (s : String) : JVal
  | arr (elems : List JVal) : JVal
  | obj (fields : List (String × JVal)) : JVal

/-- One value of the `output_format` map (`OutputFormat` in gpt.ts):
either a literal description string or an array of allowed values. -/
inductive FmtVal where
  | desc (d : String) : FmtVal
  | options (opts : List String) : FmtVal
deriving DecidableEq

/-- The arguments of `strict_output` that the embedded logic reads.
`model`, `temperature` and `verbose` are omitted: the first two are
forwarded verbatim to the provider oracle and the third only gates
console logging. -/
structure Config where
  system_prompt : String
  user_prompt : Sum String (List String)
  output_format : List (String × FmtVal)
  default_category : String
  output_value_only : Bool
  num_tries : Int

/- ---------------- Sanitization (gpt.ts lines 51, 59-61) ---------------- -/

/-- JavaScript whitespace as used by String.trim and the regex class \s
(ASCII range; the rare non-ASCII whitespace code points are not modelled). -/
def isWsJs (c : Char) : Bool :=
  c == ' ' || c == '\t' || c == '\n' || c == '\r' ||
  c == Char.ofNat 11 || c == Char.ofNat 12

def trimChars (cs : List Char) : List Char :=
  ((cs.dropWhile isWsJs).reverse.dropWhile isWsJs).reverse

/-- `res.replace(/三backtick json|三backtick/g, "")` written over char lists:
remove every occurrence of three backticks followed by "json", else of
three bare backticks, scanning left to right without rescanning. -/
def removeFencesF : Nat → List Char → List Char
  | 0, cs => cs
  | _ + 1, [] => []
  | fuel + 1, a :: rest =>
    if a == tickC then
      match rest with
      | b :: c :: 'j' :: 's' :: 'o' :: 'n' :: rest2 =>
        if b == tickC && c == tickC then removeFencesF fuel rest2
        else a :: removeFencesF fuel rest
      | b :: c :: rest2 =>
        if b == tickC && c == tickC then removeFencesF fuel rest2
        else a :: removeFencesF fuel rest
      | _ => a :: removeFencesF fuel rest
    else a :: removeFencesF fuel rest

def removeFences (cs : List Char) : List Char :=
  removeFencesF cs.length cs

/-- `res.replace(/'/g, DOUBLEQUOTE)`. -/
def replaceQuotes (cs : List Char) : List Char :=
  cs.map fun c => if c == squoteC then dquoteC else c

/-- State machine equivalent to the global regex replace
`res.replace(/,WS*([closebrace or closebracket])/g, "$1")`.  The second
argument buffers (reversed) a pending comma plus following whitespace. -/
def rtcGo : List Char → Option (List Char) → List Char
  | [], none => []
  | [], some p => p.reverse
  | c :: rest, none =>
    if c == ',' then rtcGo rest (some [c])
    else c :: rtcGo rest none
  | c :: rest, some p =>
    if c == braceCl || c == brackCl then c :: rtcGo rest none
    else if isWsJs c then rtcGo rest (some (c :: p))
    else if c == ',' then p.reverse ++ rtcGo rest (some [c])
    else p.reverse ++ c :: rtcGo rest none

def removeTrailingCommas (cs : List Char) : List Char :=
  rtcGo cs none

/-- The full cleanup applied to the raw provider text: trim (line 51),
remove code fences and trim (line 59), single to double quotes (line 60),
drop trailing commas before a closing brace or bracket (line 61). -/
def sanitize (s : String) : String :=
  String.mk (removeTrailingCommas (replaceQuotes (trimChars (removeFences (trimChars s.data)))))

/- ------------- JSON block extraction (gpt.ts lines 64-67) ------------- -/

/-- Prefix of `cs` up to and including the last occurrence of `b`. -/
def takeThroughLast (b : Char) (cs : List Char) : List Char :=
  (cs.reverse.dropWhile (fun c => !(c == b))).reverse

/-- `res.match(/BRACE[sS]*BRACE|BRACKET[sS]*BRACKET/)`: the leftmost
position where an opening brace with a later closing brace (tried first)
or an opening bracket with a later closing bracket starts a match; the
greedy quantifier extends the match to the last such closer. -/
def extractJson : List Char → Option (List Char)
  | [] => none
  | c :: rest =>
    if c == braceO && rest.contains braceCl then
      some (c :: takeThroughLast braceCl rest)
    else if c == brackO && rest.contains brackCl then
      some (c :: takeThroughLast brackCl rest)
    else extractJson rest

/- ---------------- JSON.parse (gpt.ts line 71) ----------------
The platform JSON.parse is modelled by a recursive-descent parser for
the JSON grammar: a value with optional surrounding whitespace and
nothing after it.  Duplicate object keys follow JavaScript assignment
semantics: first occurrence fixes the position, last occurrence the
value. -/

def isWsJson (c : Char) : Bool :=
  c == ' ' || c == '\t' || c == '\n' || c == '\r'

def skipWsJ (cs : List Char) : List Char :=
  cs.dropWhile isWsJson

def hexVal (c : Char) : Option Nat :=
  if c.isDigit then some (c.toNat - 48)
  else if 'a' ≤ c && c ≤ 'f' then some (c.toNat - 87)
  else if 'A' ≤ c && c ≤ 'F' then some (c.toNat - 55)
  else none

/-- JSON string body after the opening double quote; `acc` holds the
decoded characters in reverse. -/
def parseStrBody (acc : List Char) : List Char → Option (String × List Char)
  | [] => none
  | c :: rest =>
    if c == dquoteC then some (String.mk acc.reverse, rest)
    else if c == bslashC then
      match rest with
      | [] => none
      | e :: rest2 =>
        if e == dquoteC then parseStrBody (dquoteC :: acc) rest2
        else if e == bslashC then parseStrBody (bslashC :: acc) rest2
        else if e == '/' then parseStrBody ('/' :: acc) rest2
        else if e == 'b' then parseStrBody (Char.ofNat 8 :: acc) rest2
        else if e == 'f' then parseStrBody (Char.ofNat 12 :: acc) rest2
        else if e == 'n' then parseStrBody ('\n' :: acc) rest2
        else if e == 'r' then parseStrBody ('\r' :: acc) rest2
        else if e == 't' then parseStrBody ('\t' :: acc) rest2
        else if e == 'u' then
          match rest2 with
          | h1 :: h2 :: h3 :: h4 :: rest3 =>
            match hexVal h1, hexVal h2, hexVal h3, hexVal h4 with
            | some a, some b, some c2, some d =>
              parseStrBody (Char.ofNat (a * 4096 + b * 256 + c2 * 16 + d) :: acc) rest3
            | _, _, _, _ => none
          | _ => none
        else none
    else if c.toNat < 32 then none
    else parseStrBody (c :: acc) rest

def takeDigits (cs : List Char) : List Char × List Char :=
  (cs.takeWhile Char.isDigit, cs.dropWhile Char.isDigit)

/-- Optional exponent part of a JSON number; `lex` is the lexeme so far. -/
def parseExpPart (lex : List Char) (cs : List Char) : Option (String × List Char) :=
  match cs with
  | [] => some (String.mk lex, [])
  | e :: rest =>
    if e == 'e' || e == 'E' then
      let (sgn, rest2) :=
        match rest with
        | c :: r => if c == '+' || c == '-' then ([c], r) else (([] : List Char), rest)
        | [] => ([], rest)
      match rest2 with
      | c :: _ =>
        if c.isDigit then
          let (ds, rest3) := takeDigits rest2
          some (String.mk (lex ++ [e] ++ sgn ++ ds), rest3)
        else none
      | [] => none
    else some (String.mk lex, cs)

/-- Optional fraction then exponent after the integer part. -/
def parseFracExp (lex : List Char) (cs : List Char) : Option (String × List Char) :=
  match cs with
  | [] => some (String.mk lex, [])
  | c :: rest =>
    if c == '.' then
      match rest with
      | d :: _ =>
        if d.isDigit then
          let (ds, rest2) := takeDigits rest
          parseExpPart (lex ++ [c] ++ ds) rest2
        else none
      | [] => none
    else parseExpPart lex cs

/-- A JSON number lexeme: optional minus, `0` or a nonzero-led digit run,
optional fraction, optional exponent. -/
def parseNumber (cs : List Char) : Option (String × List Char) :=
  let (sgn, cs1) :=
    match cs with
    | c :: rest => if c == '-' then ([c], rest) else (([] : List Char), cs)
    | [] => ([], cs)
  match cs1 with
  | [] => none
  | c :: rest =>
    if c == '0' then parseFracExp (sgn ++ [c]) rest
    else if c.isDigit then
      let (ds, rest2) := takeDigits (c :: rest)
      parseFracExp (sgn ++ ds) rest2
    else none

/-- JavaScript property assignment into an object literal association
list: an existing key keeps its position and takes the new value, a new
key is appended. -/
def setObj : List (String × JVal) → String → JVal → List (String × JVal)
  | [], k, v => [(k, v)]
  | (k2, v2) :: rest, k, v =>
    if k2 == k then (k2, v) :: rest else (k2, v2) :: setObj rest k v

mutual

def parseValue : Nat → List Char → Option (JVal × List Char)
  | 0, _ => none
  | fuel + 1, cs =>
    match cs with
    | [] => none
    | c :: rest =>
      if c == braceO then
        match skipWsJ rest with
        | [] => none
        | c1 :: rest1 =>
          if c1 == braceCl then some (.obj [], rest1)
          else parseMembers fuel [] (c1 :: rest1)
      else if c == brackO then
        match skipWsJ rest with
        | [] => none
        | c1 :: rest1 =>
          if c1 == brackCl then some (.arr [], rest1)
          else parseElems fuel [] (c1 :: rest1)
      else if c == dquoteC then
        match parseStrBody [] rest with
        | some (s, rest2) => some (.str s, rest2)
        | none => none
      else if c == 't' then
        match rest with
        | 'r' :: 'u' :: 'e' :: r => some (.bool true, r)
        | _ => none
      else if c == 'f' then
        match rest with
        | 'a' :: 'l' :: 's' :: 'e' :: r => some (.bool false, r)
        | _ => none
      else if c == 'n' then
        match rest with
        | 'u' :: 'l' :: 'l' :: r => some (.null, r)
        | _ => none
      else if c == '-' || c.isDigit then
        match parseNumber cs with
        | some (lex, rest2) => some (.num lex, rest2)
        | none => none
      else none

/-- Object members, positioned at the first character of a key. -/
def parseMembers : Nat → List (String × JVal) → List Char → Option (JVal × List Char)
  | 0, _, _ => none
  | fuel + 1, acc, cs =>
    match cs with
    | [] => none
    | c :: rest =>
      if c == dquoteC then
        match parseStrBody [] rest with
        | none => none
        | some (k, rest1) =>
          match skipWsJ rest1 with
          | [] => none
          | c2 :: rest2 =>
            if c2 == ':' then
              match parseValue fuel (skipWsJ rest2) with
              | none => none
              | some (v, rest3) =>
                let acc2 := setObj acc k v
                match skipWsJ rest3 with
                | [] => none
                | c3 :: rest4 =>
                  if c3 == ',' then parseMembers fuel acc2 (skipWsJ rest4)
                  else if c3 == braceCl then some (.obj acc2, rest4)
                  else none
            else none
      else none

/-- Array elements, positioned at the first character of an element. -/
def parseElems : Nat → List JVal → List Char → Option (JVal × List Char)
  | 0, _, _ => none
  | fuel + 1, acc, cs =>
    match parseValue fuel cs with
    | none => none
    | some (v, rest) =>
      match skipWsJ rest with
      | [] => none
      | c :: rest1 =>
        if c == ',' then parseElems fuel (acc ++ [v]) (skipWsJ rest1)
        else if c == brackCl then some (.arr (acc ++ [v]), rest1)
        else none

end

/-- JSON.parse: a single value with surrounding whitespace and no
trailing characters; anything else is a syntax error (`none`). -/
def jsonParse (s : String) : Option JVal :=
  match parseValue (2 * s.data.length + 2) (skipWsJ s.data) with
  | some (v, rest) => if (skipWsJ rest).isEmpty then some v else none
  | none => none

/- ------------- JSON.stringify (used in messages and prompts) ------------- -/

def hexDigit (n : Nat) : Char :=
  if n < 10 then Char.ofNat (48 + n) else Char.ofNat (87 + n)

/-- One character of a JSON.stringify string literal. -/
def escChar (c : Char) : String :=
  if c == dquoteC then String.mk [bslashC, dquoteC]
  else if c == bslashC then String.mk [bslashC, bslashC]
  else if c == '\n' then String.mk [bslashC, 'n']
  else if c == '\r' then String.mk [bslashC, 'r']
  else if c == '\t' then String.mk [bslashC, 't']
  else if c == Char.ofNat 8 then String.mk [bslashC, 'b']
  else if c == Char.ofNat 12 then String.mk [bslashC, 'f']
  else if c.toNat < 32 then
    String.mk [bslashC, 'u', '0', '0', hexDigit (c.toNat / 16), hexDigit (c.toNat % 16)]
  else String.singleton c

def jstr (s : String) : String :=
  String.mk [dquoteC] ++ String.join (s.data.map escChar) ++ String.mk [dquoteC]

def joinComma : List String → String
  | [] => ""
  | [s] => s
  | s :: rest => s ++ "," ++ joinComma rest

mutual

/-- JSON.stringify of a runtime value; `undefined` at top level prints
as the template literal renders it. -/
def stringifyJVal : JVal → String
  | .null => "null"
  | .undefined => "undefined"
  | .bool b => if b then "true" else "false"
  | .num lex => lex
  | .str s => jstr s
  | .arr xs => String.mk [brackO] ++ joinComma (stringifyArr xs) ++ String.mk [brackCl]
  | .obj fs => String.mk [braceO] ++ joinComma (stringifyObj fs) ++ String.mk [braceCl]

/-- Array elements; `undefined` entries render as null. -/
def stringifyArr : List JVal → List String
  | [] => []
  | .undefined :: rest => "null" :: stringifyArr rest
  | v :: rest => stringifyJVal v :: stringifyArr rest

/-- Object entries; entries with `undefined` values are omitted. -/
def stringifyObj : List (String × JVal) → List String
  | [] => []
  | (_, .undefined) :: rest => stringifyObj rest
  | (k, v) :: rest => (jstr k ++ ":" ++ stringifyJVal v) :: stringifyObj rest

end

def stringifyFmtVal : FmtVal → String
  | .desc d => jstr d
  | .options opts => String.mk [brackO] ++ joinComma (opts.map jstr) ++ String.mk [brackCl]

/-- JSON.stringify(output_format). -/
def stringifyFmt (fmt : List (String × FmtVal)) : String :=
  String.mk [braceO] ++
    joinComma (fmt.map fun kv => jstr kv.1 ++ ":" ++ stringifyFmtVal kv.2) ++
  String.mk [braceCl]

/- ------------- Validation (gpt.ts lines 85-108) ------------- -/

def hasKeyObj (fs : List (String × JVal)) (k : String) : Bool :=
  fs.any fun p => p.1 == k

def objGet (fs : List (String × JVal)) (k : String) : JVal :=
  match fs with
  | [] => .undefined
  | (k2, v) :: rest => if k2 == k then v else objGet rest k

/-- A string that is a canonical array index below `len` (the own
integer-indexed properties of a dense array). -/
def isIndexStr (len : Nat) (k : String) : Bool :=
  match k.toNat? with
  | some i => decide (i < len) && (toString i == k)
  | none => false

/-- The JavaScript `in` operator: `none` is the TypeError raised on
primitives; arrays expose their indices and length (prototype-inherited
method names are not modelled). -/
def jsHasKey : JVal → String → Option Bool
  | .obj fs, k => some (hasKeyObj fs k)
  | .arr xs, k => some (isIndexStr xs.length k || k == "length")
  | _, _ => none

def jsGet : JVal → String → JVal
  | .obj fs, k => objGet fs k
  | .arr xs, k =>
    if k == "length" then .num (toString xs.length)
    else
      match k.toNat? with
      | some i => xs.getD i .undefined
      | none => .undefined
  | _, _ => .undefined

/-- Property assignment `item[key] = v` (array resizing through a
`length` assignment is not modelled). -/
def jsSet : JVal → String → JVal → JVal
  | .obj fs, k, v => .obj (setObj fs k v)
  | .arr xs, k, v =>
    if k == "length" then .arr xs
    else
      match k.toNat? with
      | some i => .arr (xs.set i v)
      | none => .arr xs
  | it, _, _ => it

def headOrUndef : List JVal → JVal
  | [] => .undefined
  | v :: _ => v

/-- `key.includes("<")` over the character list of the key. -/
def hasAngle (key : String) : Bool :=
  key.data.contains '<'

/-- `options.includes(v)` for a string array under strict equality. -/
def optIncludes (opts : List String) : JVal → Bool
  | .str s => opts.contains s
  | _ => false

def missingKeyMsg (key : String) (item : JVal) : String :=
  "Missing key \x27" ++ key ++ "\x27 in item: " ++ stringifyJVal item

/-- The body of the inner `for (const key in output_format)` loop for
one key (gpt.ts lines 86-102): missing keys are tolerated exactly when
the key contains an angle bracket; for allowed-value keys an array value
is collapsed to its first element and a value outside the allowed set is
replaced by the default category when that is non-empty. -/
def checkKey (dc : String) (key : String) (fv : FmtVal) (item : JVal) : Except String JVal :=
  match jsHasKey item key with
  | none => .error ("TypeError: Cannot use in operator to search for " ++ key)
  | some false =>
    if hasAngle key then .ok item
    else .error (missingKeyMsg key item)
  | some true =>
    match fv with
    | .desc _ => .ok item
    | .options opts =>
      let v := jsGet item key
      let (item2, v2) :=
        match v with
        | .arr xs => (jsSet item key (headOrUndef xs), headOrUndef xs)
        | _ => (item, v)
      if !optIncludes opts v2 && !(dc == "") then .ok (jsSet item2 key (.str dc))
      else .ok item2

/-- All output-format keys applied to one item, in declaration order. -/
def validateItem (fmt : List (String × FmtVal)) (dc : String) (item : JVal) : Except String JVal :=
  match fmt with
  | [] => .ok item
  | (k, fv) :: rest =>
    match checkKey dc k fv item with
    | .ok item2 => validateItem rest dc item2
    | .error e => .error e

/-- The outer `for (let item of outputs)` loop.  The source also
computes Object.values(item) when output_value_only is set, but only
rebinds the loop variable with it; the array cell is never written, so
the returned sequence consists of the keyed records themselves. -/
def validateAll (fmt : List (String × FmtVal)) (dc : String) : List JVal → Except String (List JVal)
  | [] => .ok []
  | it :: rest =>
    match validateItem fmt dc it with
    | .error e => .error e
    | .ok v =>
      match validateAll fmt dc rest with
      | .error e => .error e
      | .ok vs => .ok (v :: vs)

def noJsonMsg : String := "No valid JSON object found."

/-- The platform text of a JSON.parse SyntaxError, which the code only
ever forwards into feedback; modelled as a fixed string. -/
def parseFailMsg : String := "Unexpected token in JSON"

def toOutputs : JVal → List JVal
  | .arr xs => xs
  | v => [v]

/-- Sanitization, JSON extraction, parsing and validation of one raw
response text (gpt.ts lines 51-110). -/
def runAttemptText (cfg : Config) (s : String) : Except String (List JVal) :=
  match extractJson (sanitize s).data with
  | none => .error noJsonMsg
  | some t =>
    match jsonParse (String.mk t) with
    | none => .error parseFailMsg
    | some parsed => validateAll cfg.output_format cfg.default_category (toOutputs parsed)

/-- One attempt body (the try block, gpt.ts lines 46-110) applied to the
provider outcome: a thrown provider error is the attempt's error. -/
def runAttempt (cfg : Config) (raw : Except String String) : Except String (List JVal) :=
  match raw with
  | .error e => .error e
  | .ok s => runAttemptText cfg s

/- ------------- Prompt construction (gpt.ts lines 23-44) ------------- -/

/-- The regex test /<.*?>/ on a string: some later closing angle bracket
follows an opening one with no line terminator in between. -/
def angleTest (cs : List Char) : Bool :=
  go cs false
where
  go : List Char → Bool → Bool
    | [], _ => false
    | c :: rest, opened =>
      if c == '>' && opened then true
      else if c == '\n' || c == '\r' then go rest false
      else if c == '<' then go rest true
      else go rest opened

def isListInput : Sum String (List String) → Bool
  | .inl _ => false
  | .inr _ => true

def joinedInput : Sum String (List String) → String
  | .inl s => s
  | .inr l => String.intercalate "\n" l

/-- The prompt of one attempt: system prompt, format instructions,
current error feedback, and the serialized input. -/
def buildPrompt (cfg : Config) (error_msg : String) : String :=
  let fmtStr := stringifyFmt cfg.output_format
  let fi :=
    "\n\nONLY return a valid JSON object following this shape: " ++ fmtStr ++
    ".\nDo not wrap the JSON inside code blocks.\nDo not use single quotes.\nAvoid trailing commas.\nReturn ONLY raw valid JSON with NO explanations, NO markdown, and NO comments.\n"
  let fi := fi ++
    (if isListInput cfg.user_prompt then
      "\nReturn an array of JSON objects – one for each user input." else "")
  let fi := fi ++
    (if angleTest fmtStr.data then
      "\nAny key or value wrapped in <...> must be replaced dynamically with contextually accurate content." else "")
  let fi := fi ++
    "\n\n⚠️ Output MUST be directly parsable by JavaScript\x27s JSON.parse() – no explanation, no markdown formatting, no extra comments."
  cfg.system_prompt ++ fi ++ error_msg ++ "\n\nINPUT:\n" ++ joinedInput cfg.user_prompt

/- ------------- The retry loop (gpt.ts lines 27-119) ------------- -/

def feedbackMsg (e : String) : String :=
  "\n\n[PREVIOUS ATTEMPT FAILED: " ++ e ++ "]"

def allFailedMsg : String := "All attempts failed to produce valid structured output."

/-- The provider oracle: attempt index and prompt to either a thrown
error message or the raw response text of `generateContent`. -/
def Provider : Type := Nat → String → Except String String

/-- The `for (let i = 0; i < num_tries; i++)` loop.  `fuel` is the
number of remaining iterations, `i` the current index, `error_msg` the
feedback from the previous attempt; the prompt built for every executed
attempt is returned alongside the outcome. -/
def runAttempts (cfg : Config) (provider : Provider) :
    Nat → Nat → String → List String × Except String (List JVal)
  | 0, _, _ => ([], .error allFailedMsg)
  | fuel + 1, i, error_msg =>
    let prompt := buildPrompt cfg error_msg
    match runAttempt cfg (provider i prompt) with
    | .ok outs => ([prompt], .ok outs)
    | .error e =>
      let rec2 := runAttempts cfg provider fuel (i + 1) (feedbackMsg e)
      (prompt :: rec2.1, rec2.2)

/-- `strict_output`: run up to `num_tries` sequential attempts, return
the first success, and otherwise throw the exhausted-retries error.  The
first component is the trace of prompts actually built (one per
attempt). -/
def strict_output (cfg : Config) (provider : Provider) :
    List String × Except String (List JVal) :=
  runAttempts cfg provider cfg.num_tries.toNat 0 ""

/-- Number of input items in the user prompt. -/
def numInputs : Sum String (List String) → Nat
  | .inl _ => 1
  | .inr l => l.length

/-- An array value collapsed to its first element, everything else kept:
the value the enum-membership test is applied to. -/
def firstIfArray : JVal → JVal
  | .arr xs => headOrUndef xs
  | v => v

/- ------------- Definitions taken from the specification ------------- -/

/-- Modelled from the spec (values-only unwrapping, absent from the
effective code): replace the record with the sole value if the shape has
exactly one key, otherwise the ordered sequence of the record's values
in OutputShape key order. -/
def valuesOnlySpec (fmt : List (String × FmtVal)) : JVal → JVal
  | .obj fs =>
    match fmt with
    | [(k, _)] => objGet fs k
    | _ => .arr (fmt.map fun kv => objGet fs kv.1)
  | v => v

def parsesAsContainer (cs : List Char) : Bool :=
  match jsonParse (String.mk cs) with
  | some (.obj _) => true
  | some (.arr _) => true
  | _ => false

def shortestContainerPrefix (cs : List Char) : Option (List Char) :=
  (List.range (cs.length + 1)).findSome? fun n =>
    let p := cs.take n
    if parsesAsContainer p then some p else none

/-- Modelled from the spec (sanitization step 3): the first balanced
JSON object or array substring of the text — leftmost starting
position, shortest span that parses as a JSON object or array. -/
def firstBalancedJsonSpan : List Char → Option (List Char)
  | [] => none
  | c :: rest =>
    match shortestContainerPrefix (c :: rest) with
    | some p => some p
    | none => firstBalancedJsonSpan rest

/- ------------- Substring test (for prompt contents) ------------- -/

def subAt : List Char → List Char → Bool
  | [], _ => true
  | _ :: _, [] => false
  | a :: as, b :: bs => a == b && subAt as bs

def hasSubChars (needle : List Char) : List Char → Bool
  | [] => needle.isEmpty
  | c :: rest => subAt needle (c :: rest) || hasSubChars needle rest

/-- Whether `needle` occurs contiguously inside `hay`. -/
def strHasSub (hay needle : String) : Bool :=
  hasSubChars needle.data hay.data

/- ------------- Helper lemmas ------------- -/

theorem hasKeyObj_map (fs : List (String × JVal)) (k : String) :
    hasKeyObj fs k = (fs.map Prod.fst).any fun s => s == k := by
  induction fs with
  | nil => rfl
  | cons p rest ih => simp [hasKeyObj, List.any_cons] at ih ⊢; rw [ih]

theorem hasKeyObj_congr {fs fs' : List (String × JVal)}
    (h : fs'.map Prod.fst = fs.map Prod.fst) (k : String) :
    hasKeyObj fs' k = hasKeyObj fs k := by
  rw [hasKeyObj_map, hasKeyObj_map, h]

theorem setObj_map_fst (fs : List (String × JVal)) (k : String) (v : JVal)
    (h : hasKeyObj fs k = true) :
    (setObj fs k v).map Prod.fst = fs.map Prod.fst := by
  induction fs with
  | nil => simp [hasKeyObj] at h
  | cons p rest ih =>
    by_cases hk : p.1 == k
    · cases p; simp_all [setObj]
    · cases p
      simp only [hasKeyObj, List.any_cons] at h
      simp only [hk, Bool.false_or] at h
      simp_all [setObj, hasKeyObj]

theorem objGet_setObj_ne (fs : List (String × JVal)) (k k2 : String) (v : JVal)
    (h : k2 ≠ k) : objGet (setObj fs k v) k2 = objGet fs k2 := by
  induction fs with
  | nil =>
    simp only [setObj, objGet]
    have : (k == k2) = false := by
      simp only [beq_eq_false_iff_ne, ne_eq]; exact fun he => h he.symm
    simp [this]
  | cons p rest ih =>
    cases p with
    | mk k3 v3 =>
      by_cases hk : k3 == k
      · have hne : (k3 == k2) = false := by
          simp only [beq_eq_false_iff_ne, ne_eq]
          intro he; exact h (he.symm.trans (eq_of_beq hk))
        simp [setObj, hk, objGet, hne]
      · simp only [setObj, hk, if_false]
        by_cases hk2 : k3 == k2 <;> simp [objGet, hk2, ih]

theorem setObj_setObj (fs : List (String × JVal)) (k : String) (a b : JVal) :
    setObj (setObj fs k a) k b = setObj fs k b := by
  induction fs with
  | nil => simp [setObj]
  | cons p rest ih =>
    cases p with
    | mk k3 v3 => by_cases hk : k3 == k <;> simp [setObj, hk, ih]

theorem hasKeyObj_setObj (fs : List (String × JVal)) (k k2 : String) (v : JVal)
    (h : hasKeyObj fs k = true) :
    hasKeyObj (setObj fs k v) k2 = hasKeyObj fs k2 :=
  hasKeyObj_congr (setObj_map_fst fs k v h) k2

/-- A successful `checkKey` on a description key leaves the item
untouched. -/
theorem checkKey_desc_ok {dc key d : String} {fs : List (String × JVal)} {v : JVal}
    (h : checkKey dc key (.desc d) (.obj fs) = .ok v) : v = .obj fs := by
  unfold checkKey jsHasKey at h
  cases hk : hasKeyObj fs key <;> simp only [hk] at h
  · split at h
    · exact (Except.ok.inj h).symm
    · cases h
  · exact (Except.ok.inj h).symm

/-- A successful `checkKey` on an allowed-values key only rewrites that
key: the key list is preserved and every other key reads the same. -/
theorem checkKey_options_frame {dc key : String} {opts : List String}
    {fs : List (String × JVal)} {v : JVal}
    (h : checkKey dc key (.options opts) (.obj fs) = .ok v) :
    ∃ fs', v = .obj fs' ∧ fs'.map Prod.fst = fs.map Prod.fst ∧
      ∀ k2, k2 ≠ key → objGet fs' k2 = objGet fs k2 := by
  unfold checkKey jsHasKey at h
  cases hk : hasKeyObj fs key <;> simp only [hk] at h
  · split at h
    · exact ⟨fs, (Except.ok.inj h).symm, rfl, fun _ _ => rfl⟩
    · cases h
  · cases hv : objGet fs key <;>
      simp only [jsGet, hv, jsSet] at h <;>
      [skip; skip; skip; skip; skip; skip; skip] <;>
      first
      | -- array case: one or two setObj writes at `key`
        (split at h
         · refine ⟨setObj (setObj fs key _) key (.str dc),
             (Except.ok.inj h).symm, ?_, ?_⟩
           · rw [setObj_map_fst, setObj_map_fst] <;>
               first
                 | exact hk
                 | rw [hasKeyObj_setObj fs key key _ hk]; exact hk
           · intro k2 hne
             rw [objGet_setObj_ne _ _ _ _ hne, objGet_setObj_ne _ _ _ _ hne]
         · refine ⟨setObj fs key _, (Except.ok.inj h).symm, setObj_map_fst fs key _ hk, ?_⟩
           intro k2 hne
           exact objGet_setObj_ne _ _ _ _ hne)
      | -- non-array cases: either one write at `key` or no write
        (split at h
         · exact ⟨setObj fs key (.str dc), (Except.ok.inj h).symm,
             setObj_map_fst fs key _ hk, fun k2 hne => objGet_setObj_ne _ _ _ _ hne⟩
         · exact ⟨fs, (Except.ok.inj h).symm, rfl, fun _ _ => rfl⟩)

/-- Any successful `checkKey` returns an object with the same key list. -/
theorem checkKey_ok_obj {dc key : String} {fv : FmtVal}
    {fs : List (String × JVal)} {v : JVal}
    (h : checkKey dc key fv (.obj fs) = .ok v) :
    ∃ fs', v = .obj fs' ∧ fs'.map Prod.fst = fs.map Prod.fst := by
  cases fv with
  | desc d => exact ⟨fs, checkKey_desc_ok h, rfl⟩
  | options opts =>
    obtain ⟨fs', hv, hm, _⟩ := checkKey_options_frame h
    exact ⟨fs', hv, hm⟩

/-- A key of the shape that is absent from the item and has no angle
bracket makes `validateItem` fail, whatever happens on the other keys. -/
theorem validateItem_missing_error {key : String} {fv : FmtVal}
    (fmt : List (String × FmtVal)) (dc : String) (fs : List (String × JVal))
    (hmem : (key, fv) ∈ fmt) (hlt : hasAngle key = false)
    (habs : hasKeyObj fs key = false) :
    ∃ e, validateItem fmt dc (.obj fs) = .error e := by
  induction fmt generalizing fs with
  | nil => cases hmem
  | cons p rest ih =>
    rcases List.mem_cons.mp hmem with hhead | htail
    · cases p with
      | mk k0 fv0 =>
        cases hhead
        refine ⟨missingKeyMsg key (.obj fs), ?_⟩
        unfold validateItem checkKey jsHasKey
        simp [habs, hlt]
    · cases p with
      | mk k0 fv0 =>
        unfold validateItem
        cases hck : checkKey dc k0 fv0 (.obj fs) with
        | error e => exact ⟨e, by simp [hck]⟩
        | ok v =>
          obtain ⟨fs1, rfl, hmap⟩ := checkKey_ok_obj hck
          obtain ⟨e, he⟩ := ih fs1 htail ((hasKeyObj_congr hmap key).trans habs)
          exact ⟨e, by simp [hck, he]⟩

/-- If some item of the batch fails validation, the whole batch fails. -/
theorem validateAll_member_error {fmt : List (String × FmtVal)} {dc : String}
    {item : JVal} {items : List JVal} {e : String}
    (hmem : item ∈ items) (hit : validateItem fmt dc item = .error e) :
    ∃ e2, validateAll fmt dc items = .error e2 := by
  induction items with
  | nil => cases hmem
  | cons it rest ih =>
    rcases List.mem_cons.mp hmem with rfl | htail
    · exact ⟨e, by unfold validateAll; simp [hit]⟩
    · unfold validateAll
      cases hh : validateItem fmt dc it with
      | error e3 => exact ⟨e3, by simp⟩
      | ok v =>
        obtain ⟨e2, he2⟩ := ih htail
        exact ⟨e2, by simp [he2]⟩

theorem validateAll_length {fmt : List (String × FmtVal)} {dc : String} :
    ∀ {items : List JVal} {outs : List JVal},
    validateAll fmt dc items = .ok outs → outs.length = items.length := by
  intro items
  induction items with
  | nil => intro outs h; unfold validateAll at h; cases h; rfl
  | cons it rest ih =>
    intro outs h
    unfold validateAll at h
    cases hh : validateItem fmt dc it <;> rw [hh] at h
    · cases h
    · cases hr : validateAll fmt dc rest <;> rw [hr] at h
      · cases h
      · cases h; simp [ih hr]

/-- With every attempt failing, the loop runs through all its fuel and
ends in the terminal error. -/
theorem runAttempts_allfail {cfg : Config} {provider : Provider}
    (h : ∀ i p, ∃ e, runAttempt cfg (provider i p) = .error e) :
    ∀ fuel i em, (runAttempts cfg provider fuel i em).1.length = fuel ∧
      (runAttempts cfg provider fuel i em).2 = .error allFailedMsg := by
  intro fuel
  induction fuel with
  | zero => intro i em; exact ⟨rfl, rfl⟩
  | succ n ih =>
    intro i em
    obtain ⟨e, he⟩ := h i (buildPrompt cfg em)
    unfold runAttempts
    simp only [he]
    obtain ⟨h1, h2⟩ := ih (i + 1) (feedbackMsg e)
    exact ⟨by simp [h1], h2⟩

/-- The first prompt the loop builds is made from the feedback text it
was entered with. -/
theorem runAttempts_head_prompt {cfg : Config} {provider : Provider} :
    ∀ {fuel i em p}, ((runAttempts cfg provider fuel i em).1).get? 0 = some p →
      p = buildPrompt cfg em := by
  intro fuel i em p h
  cases fuel with
  | zero => cases h
  | succ n =>
    unfold runAttempts at h
    cases hA : runAttempt cfg (provider i (buildPrompt cfg em)) <;>
      simp only [hA, List.get?] at h <;> exact (Option.some.inj h).symm

/-- Every prompt after the first is built from exactly the feedback of
the directly preceding failed attempt. -/
theorem runAttempts_prompt_succ {cfg : Config} {provider : Provider} :
    ∀ fuel i em k p2,
      ((runAttempts cfg provider fuel i em).1).get? (k + 1) = some p2 →
      ∃ e, runAttempt cfg
          (provider (i + k) (((runAttempts cfg provider fuel i em).1).getD k "")) = .error e ∧
        p2 = buildPrompt cfg (feedbackMsg e) := by
  intro fuel
  induction fuel with
  | zero => intro i em k p2 h; cases h
  | succ n ih =>
    intro i em k p2 h
    unfold runAttempts at h ⊢
    cases hA : runAttempt cfg (provider i (buildPrompt cfg em)) with
    | ok outs =>
      simp only [hA, List.get?] at h
      exact Option.noConfusion h
    | error e =>
      simp only [hA, List.get?] at h ⊢
      cases k with
      | zero =>
        refine ⟨e, ?_, runAttempts_head_prompt h⟩
        simpa [List.getD] using hA
      | succ k2 =>
        obtain ⟨e2, he2, hp⟩ := ih (i + 1) (feedbackMsg e) k2 p2 h
        refine ⟨e2, ?_, hp⟩
        have hidx : i + (k2 + 1) = i + 1 + k2 := by omega
        have hgd : ((buildPrompt cfg em :: (runAttempts cfg provider n (i + 1) (feedbackMsg e)).1)).getD (k2 + 1) "" =
            ((runAttempts cfg provider n (i + 1) (feedbackMsg e)).1).getD k2 "" := rfl
        rw [hidx, hgd]
        exact he2

/- ------------- Concrete fixtures used by witnesses ------------- -/

def cfgR : Config := ⟨"sys", .inl "inp", [("answer", .desc "a")], "", false, 2⟩

def provNoJson : Provider := fun _ _ => .ok "no json here"

def cfgZneg : Config := ⟨"sys", .inl "u", [("q", .desc "d")], "", false, -2⟩

/- ------------- The claims ------------- -/

/-- C1: when every attempt fails, `strict_output` makes exactly
`num_tries` attempts (one prompt per attempt), each per-attempt error is
absorbed by the loop, and the call ends in the single terminal
exhausted-retries error — never in a partial result. -/
theorem C1_retry_exhaustion (cfg : Config) (provider : Provider)
    (hn : 1 ≤ cfg.num_tries)
    (hfail : ∀ i p, ∃ e, runAttempt cfg (provider i p) = .error e) :
    (strict_output cfg provider).1.length = cfg.num_tries.toNat ∧
    ((strict_output cfg provider).1.length : Int) = cfg.num_tries ∧
    (strict_output cfg provider).2 = .error allFailedMsg := by
  have h := runAttempts_allfail hfail cfg.num_tries.toNat 0 ""
  refine ⟨h.1, ?_, h.2⟩
  show ((runAttempts cfg provider cfg.num_tries.toNat 0 "").1.length : Int) = cfg.num_tries
  rw [h.1]
  exact Int.toNat_of_nonneg (by omega)

theorem C1_witness :
    (strict_output cfgR provNoJson).1.length = Int.toNat 2 ∧
    ((strict_output cfgR provNoJson).1.length : Int) = 2 ∧
    (strict_output cfgR provNoJson).2 = .error allFailedMsg :=
  C1_retry_exhaustion cfgR provNoJson (by decide)
    (fun _ _ => ⟨noJsonMsg, rfl⟩)

/-- C2: for an allowed-values key that is present, an array value is
collapsed to its first element, and when the resulting value is outside
the allowed set and a non-empty default category is configured, the
field resolves to the default category in the returned record. -/
theorem C2_enum_defaulting (dc key : String) (opts : List String)
    (fs : List (String × JVal)) (hdc : dc ≠ "")
    (hk : hasKeyObj fs key = true)
    (hv : optIncludes opts (firstIfArray (objGet fs key)) = false) :
    checkKey dc key (.options opts) (.obj fs) =
      .ok (.obj (setObj fs key (.str dc))) := by
  have hdc2 : (dc == "") = false := beq_eq_false_iff_ne.mpr hdc
  unfold checkKey jsHasKey
  simp only [hk]
  cases hobj : objGet fs key <;>
    simp only [jsGet, hobj, firstIfArray, jsSet] at hv ⊢ <;>
    simp [hv, hdc2, setObj_setObj]

theorem C2_witness :
    checkKey "other" "difficulty" (.options ["easy", "hard"])
      (.obj [("difficulty", .arr [.str "medium", .str "easy"])]) =
      .ok (.obj [("difficulty", .str "other")]) :=
  C2_enum_defaulting "other" "difficulty" ["easy", "hard"]
    [("difficulty", .arr [.str "medium", .str "easy"])] (by decide) rfl rfl

/-- C3: a record lacking a key that contains an angle bracket passes
that key unchanged, while a record lacking a key without one makes the
whole attempt validation fail. -/
theorem C3_placeholder_tolerance (dc : String) (fs : List (String × JVal))
    (key : String) (fv : FmtVal) (fmt : List (String × FmtVal))
    (items : List JVal) (habs : hasKeyObj fs key = false) :
    (hasAngle key = true → checkKey dc key fv (.obj fs) = .ok (.obj fs)) ∧
    (hasAngle key = false → (key, fv) ∈ fmt → JVal.obj fs ∈ items →
      ∃ e, validateAll fmt dc items = .error e) := by
  constructor
  · intro hc
    unfold checkKey jsHasKey
    simp [habs, hc]
  · intro hc hmem hitem
    obtain ⟨e, he⟩ := validateItem_missing_error fmt dc fs hmem hc habs
    exact validateAll_member_error hitem he

theorem C3_witness :
    (checkKey "" "<topic>" (.desc "d") (.obj []) = .ok (.obj [])) ∧
    (∃ e, validateAll [("question", FmtVal.desc "d")] "" [JVal.obj []] = .error e) :=
  ⟨(C3_placeholder_tolerance "" [] "<topic>" (.desc "d") [] [] rfl).1 (by decide),
   (C3_placeholder_tolerance "" [] "question" (.desc "d")
      [("question", FmtVal.desc "d")] [JVal.obj []] rfl).2 (by decide)
      (List.Mem.head _) (List.Mem.head _)⟩

/-- C8: a non-positive `num_tries` makes `strict_output` build no
prompt, call the provider never, and fail at once with the terminal
exhausted-retries error. -/
theorem C8_no_tries (cfg : Config) (provider : Provider)
    (hn : cfg.num_tries ≤ 0) :
    strict_output cfg provider = ([], .error allFailedMsg) := by
  unfold strict_output
  rw [Int.toNat_eq_zero.mpr hn]
  rfl

theorem C8_witness : strict_output cfgZneg provNoJson = ([], .error allFailedMsg) :=
  C8_no_tries cfgZneg provNoJson (by decide)

/-- C10: a missing key is tolerated (the item passes unchanged) exactly
when the key contains an opening angle bracket anywhere; no closing
bracket is required. -/
theorem C10_tolerance_iff (dc : String) (fv : FmtVal)
    (fs : List (String × JVal)) (key : String)
    (habs : hasKeyObj fs key = false) :
    checkKey dc key fv (.obj fs) = .ok (.obj fs) ↔ hasAngle key = true := by
  unfold checkKey jsHasKey
  simp only [habs]
  by_cases hc : hasAngle key <;> simp [hc]

theorem C10_witness :
    checkKey "" "a<b" (.desc "d") (.obj []) = .ok (.obj []) :=
  (C10_tolerance_iff "" (.desc "d") [] "a<b" rfl).mpr (by decide)

/-- C9: validation only ever rewrites allowed-values keys; every other
field of a successfully validated record — including keys absent from
the output format — is returned unchanged, and no key is added or
removed. -/
theorem C9_frame (fmt : List (String × FmtVal)) (dc : String)
    (fs : List (String × JVal)) (v : JVal)
    (h : validateItem fmt dc (.obj fs) = .ok v) :
    ∃ fs', v = .obj fs' ∧ fs'.map Prod.fst = fs.map Prod.fst ∧
      ∀ k, (∀ opts, (k, FmtVal.options opts) ∉ fmt) → objGet fs' k = objGet fs k := by
  induction fmt generalizing fs with
  | nil =>
    unfold validateItem at h
    exact ⟨fs, (Except.ok.inj h).symm, rfl, fun _ _ => rfl⟩
  | cons p rest ih =>
    cases p with
    | mk k0 fv0 =>
      unfold validateItem at h
      cases hck : checkKey dc k0 fv0 (.obj fs) with
      | error e => rw [hck] at h; cases h
      | ok v1 =>
        rw [hck] at h
        cases fv0 with
        | desc d =>
          rw [checkKey_desc_ok hck] at h
          obtain ⟨fs', hv, hmap, hget⟩ := ih fs h
          exact ⟨fs', hv, hmap,
            fun k hk => hget k fun opts hmem => hk opts (List.mem_cons_of_mem _ hmem)⟩
        | options opts0 =>
          obtain ⟨fs1, hv1, hmap1, hget1⟩ := checkKey_options_frame hck
          subst hv1
          obtain ⟨fs', hv, hmap, hget⟩ := ih fs1 h
          refine ⟨fs', hv, hmap.trans hmap1, fun k hk => ?_⟩
          have hne : k ≠ k0 := fun heq =>
            hk opts0 (by rw [heq]; exact List.Mem.head _)
          rw [hget k fun opts hmem => hk opts (List.mem_cons_of_mem _ hmem), hget1 k hne]

theorem C9_witness :
    ∃ fs', (JVal.obj [("q", .str "hello"), ("extra", .num "5"), ("cat", .str "x")]) = .obj fs' ∧
      fs'.map Prod.fst =
        ([("q", JVal.str "hello"), ("extra", JVal.num "5"), ("cat", JVal.str "z")]).map Prod.fst ∧
      ∀ k, (∀ opts,
          (k, FmtVal.options opts) ∉ [("cat", FmtVal.options ["a", "b"]), ("q", FmtVal.desc "d")]) →
        objGet fs' k = objGet [("q", JVal.str "hello"), ("extra", JVal.num "5"), ("cat", JVal.str "z")] k :=
  C9_frame [("cat", .options ["a", "b"]), ("q", .desc "d")] "x"
    [("q", .str "hello"), ("extra", .num "5"), ("cat", .str "z")]
    (.obj [("q", .str "hello"), ("extra", .num "5"), ("cat", .str "x")]) rfl

/- ------------- C4: values-only mode ------------- -/

def cfgVO : Config := ⟨"sys", .inl "input", [("answer", .desc "a short answer")], "", true, 3⟩

def provParis : Provider := fun _ _ => .ok "\x7b\"answer\": \"Paris\"\x7d"

/-- C4: with output_value_only set and the one-key shape of the spec
example, the code still returns the keyed record — the unwrapping the
spec describes (`valuesOnlySpec`) would give the bare value, which is a
different result.  The for-of loop only rebinds its local variable. -/
theorem C4_values_only_not_unwrapped :
    (strict_output cfgVO provParis).2 = .ok [JVal.obj [("answer", JVal.str "Paris")]] ∧
    valuesOnlySpec cfgVO.output_format (JVal.obj [("answer", JVal.str "Paris")]) =
      JVal.str "Paris" ∧
    (Except.ok [JVal.obj [("answer", JVal.str "Paris")]] : Except String (List JVal)) ≠
      .ok [JVal.str "Paris"] := by
  refine ⟨rfl, rfl, fun hcontra => ?_⟩
  have h1 := Except.ok.inj hcontra
  injection h1 with h3 _
  exact JVal.noConfusion h3

/- ------------- C5: sanitization and extraction ------------- -/

def fencedText : String := "```json\n\x7b\x27a\x27: 1,\x7d\n```"

def twoObjText : String := "\x7b\"a\":1\x7d \x7b\"b\":2\x7d"

def greedyText : String := "x \x7b\"a\":1\x7d y \x7b\"b\":2\x7d z"

/-- C5 (amended): sanitization normalizes fenced, single-quoted,
trailing-comma text to valid JSON; when the extraction finds no span
the attempt fails with the no-JSON error; and the extracted span is the
greedy one, from the first opening brace to the last closing brace. -/
theorem C5_sanitize_extract :
    (sanitize fencedText = "\x7b\"a\": 1\x7d" ∧
      jsonParse (sanitize fencedText) = some (JVal.obj [("a", JVal.num "1")])) ∧
    (∀ (cfg : Config) (s : String), extractJson (sanitize s).data = none →
      runAttempt cfg (.ok s) = .error noJsonMsg) ∧
    extractJson greedyText.data = some "\x7b\"a\":1\x7d y \x7b\"b\":2\x7d".data := by
  refine ⟨⟨rfl, rfl⟩, ?_, rfl⟩
  intro cfg s h
  show runAttemptText cfg s = .error noJsonMsg
  unfold runAttemptText
  rw [h]

theorem C5_witness : runAttempt cfgR (.ok "hello") = .error noJsonMsg :=
  C5_sanitize_extract.2.1 cfgR "hello" rfl

/-- C5 counterexample: on text holding two JSON objects the code
extracts the greedy span (which fails to parse), not the first balanced
JSON substring (which parses fine) — so the claim's "first balanced
substring" description is false of the code. -/
theorem C5_counterexample :
    extractJson (sanitize twoObjText).data = some twoObjText.data ∧
    jsonParse (String.mk twoObjText.data) = none ∧
    firstBalancedJsonSpan (sanitize twoObjText).data = some "\x7b\"a\":1\x7d".data ∧
    jsonParse "\x7b\"a\":1\x7d" = some (JVal.obj [("a", JVal.num "1")]) :=
  ⟨rfl, rfl, rfl, rfl⟩

/- ------------- C6: error feedback across attempts ------------- -/

def cfgFB : Config := ⟨"S", .inl "U", [("q", .desc "d")], "", false, 3⟩

def provFB : Provider := fun i _ => .error (if i == 0 then "E1" else "E2")

set_option maxRecDepth 100000 in
/-- C6 counterexample: with providers failing as E1 then E2, the prompt
of attempt 3 carries the feedback marker of attempt 2 but not the one of
attempt 1 — the feedback text is overwritten, not accumulated. -/
theorem C6_counterexample :
    (strict_output cfgFB provFB).1.length = 3 ∧
    strHasSub ((strict_output cfgFB provFB).1.getD 2 "") "[PREVIOUS ATTEMPT FAILED: E2]" = true ∧
    strHasSub ((strict_output cfgFB provFB).1.getD 2 "") "[PREVIOUS ATTEMPT FAILED: E1]" = false :=
  ⟨rfl, rfl, rfl⟩

/-- C6 (amended): the prompt of every attempt after the first is built
from exactly the feedback marker of the directly preceding failed
attempt — the feedback slot is replaced, not extended. -/
theorem C6_last_feedback_only (cfg : Config) (provider : Provider) (k : Nat) (p2 : String)
    (h : ((strict_output cfg provider).1).get? (k + 1) = some p2) :
    ∃ e, runAttempt cfg (provider k (((strict_output cfg provider).1).getD k "")) = .error e ∧
      p2 = buildPrompt cfg (feedbackMsg e) := by
  have h2 := runAttempts_prompt_succ cfg.num_tries.toNat 0 "" k p2 h
  simpa [strict_output] using h2

theorem C6_witness :
    ∃ e, runAttempt cfgFB (provFB 1 ((strict_output cfgFB provFB).1.getD 1 "")) = .error e ∧
      (strict_output cfgFB provFB).1.getD 2 "" = buildPrompt cfgFB (feedbackMsg e) :=
  C6_last_feedback_only cfgFB provFB 1 ((strict_output cfgFB provFB).1.getD 2 "") rfl

/- ------------- C7: input count versus output count ------------- -/

def cfgT : Config := ⟨"sys", .inr ["i1", "i2"], [("q", .desc "question")], "", false, 3⟩

def provOneRec : Provider := fun _ _ => .ok "\x7b\"q\":\"x\"\x7d"

def twoRecText : String := "[\x7b\"q\":\"a\"\x7d,\x7b\"q\":\"b\"\x7d]"

/-- C7 counterexample: with two input items and a provider returning a
single object, the call succeeds with one record — the record count
follows the provider's JSON, not the number of inputs. -/
theorem C7_counterexample :
    numInputs cfgT.user_prompt = 2 ∧
    (strict_output cfgT provOneRec).2 = .ok [JVal.obj [("q", JVal.str "x")]] ∧
    ([JVal.obj [("q", JVal.str "x")]]).length ≠ numInputs cfgT.user_prompt :=
  ⟨rfl, rfl, by decide⟩

/-- C7 (amended): a successful attempt returns exactly one validated
record per element of the parsed provider response, in that order; the
count is never compared to the number of input items. -/
theorem C7_success_shape (cfg : Config) (raw : Except String String) (outs : List JVal)
    (h : runAttempt cfg raw = .ok outs) :
    ∃ s t p, raw = .ok s ∧ extractJson (sanitize s).data = some t ∧
      jsonParse (String.mk t) = some p ∧
      validateAll cfg.output_format cfg.default_category (toOutputs p) = .ok outs ∧
      outs.length = (toOutputs p).length := by
  cases raw with
  | error e =>
    exact Except.noConfusion (show Except.error e = Except.ok outs from h)
  | ok s =>
    have h2 : runAttemptText cfg s = .ok outs := h
    unfold runAttemptText at h2
    split at h2
    next => cases h2
    next t hx =>
      split at h2
      next => cases h2
      next parsed hp =>
        exact ⟨s, t, parsed, rfl, hx, hp, h2, validateAll_length h2⟩

theorem C7_witness :
    ∃ s t p, (Except.ok twoRecText : Except String String) = .ok s ∧
      extractJson (sanitize s).data = some t ∧
      jsonParse (String.mk t) = some p ∧
      validateAll cfgT.output_format cfgT.default_category (toOutputs p) =
        .ok [JVal.obj [("q", JVal.str "a")], JVal.obj [("q", JVal.str "b")]] ∧
      ([JVal.obj [("q", JVal.str "a")], JVal.obj [("q", JVal.str "b")]]).length =
        (toOutputs p).length :=
  C7_success_shape cfgT (.ok twoRecText)
    [JVal.obj [("q", JVal.str "a")], JVal.obj [("q", JVal.str "b")]] rfl

end StrictOutput
